import Mathlib

/-!
Shallow embedding of the gotris repository (Go): the deterministic game
simulation engine (internal/game) and the server room/registry logic
(cmd/server), together with proofs of the frozen claims about them.

Conventions of the embedding:
* Go slices become Lean lists; Go maps keyed by strings become association
  lists whose lookup is the first match (Go maps have unique keys, which the
  erase-then-insert update preserves extensionally).
* Go `int` values that are only ever non-negative in the modelled API
  (scores, levels, line counts, queue sizes) become `Nat`; piece coordinates,
  which may be offset negatively, become `Int`; the attack power carried in a
  network payload, which an arbitrary client could make negative, stays `Int`.
* Calls to the process-global `math/rand` (the garbage hole draw, the random
  opponent draw) are nondeterministic inputs of the embedded function: the
  drawn value becomes an explicit argument.
* Go's seeded `rand.New(rand.NewSource(seed))` is an external standard
  library; it is modelled by a deterministic congruential generator.  The
  claims proved about it depend only on the two contractual facts that the
  real library also has: the stream is a pure function of the seed, and
  `Intn n` returns a value in `[0, n)`.
-/

namespace Gotris

/-! ### Model of the seeded `math/rand` source -/

/-- Model of Go's seeded `math/rand` source (`rand.New(rand.NewSource(seed))`).
The standard library's generator is deterministic given the seed; we model it
by a 64-bit linear congruential generator.  None of the proved claims depend
on the particular update function, only on determinism and on the range of
`intn`. -/
structure RandSource where
  state : Nat
  deriving Repr, DecidableEq

/-- Build the model source from a seed, as `rand.NewSource(seed)` does. -/
def mkSource (seed : Int) : RandSource :=
  { state := (seed % (2 ^ 64)).toNat }

/-- One step of the modelled generator state. -/
def RandSource.next (r : RandSource) : RandSource :=
  { state := (r.state * 6364136223846793005 + 1442695040888963407) % (2 ^ 64) }

/-- Model of `(*rand.Rand).Intn n`: a value in `[0, n)` plus the advanced
source.  Go's `Intn` panics for `n <= 0`; every call site in the repository
passes a positive `n`. -/
def RandSource.intn (r : RandSource) (n : Nat) : Nat × RandSource :=
  let r' := r.next
  (r'.state / 2 ^ 11 % n, r')

/-! ### Piece types and pieces (internal/game/piece.go) -/

/-- `const BoardWidth = 10`. -/
def BoardWidth : Nat := 10

/-- `const BoardHeight = 20`. -/
def BoardHeight : Nat := 20

/-- The seven tetromino types, `PieceI .. PieceL`. -/
inductive PieceType where
  | I | O | T | S | Z | J | L
  deriving Repr, DecidableEq

/-- `var pieceShapes = map[PieceType][][]bool{...}`. -/
def pieceShapes : PieceType → List (List Bool)
  | .I => [[false, false, false, false],
           [true, true, true, true],
           [false, false, false, false],
           [false, false, false, false]]
  | .O => [[true, true],
           [true, true]]
  | .T => [[false, true, false],
           [true, true, true],
           [false, false, false]]
  | .S => [[false, true, true],
           [true, true, false],
           [false, false, false]]
  | .Z => [[true, true, false],
           [false, true, true],
           [false, false, false]]
  | .J => [[true, false, false],
           [true, true, true],
           [false, false, false]]
  | .L => [[false, false, true],
           [true, true, true],
           [false, false, false]]

/-- `var pieceColors = map[PieceType]int{...}`. -/
def pieceColors : PieceType → Nat
  | .I => 6
  | .O => 3
  | .T => 5
  | .S => 2
  | .Z => 1
  | .J => 4
  | .L => 3

/-- `type Piece struct { Type PieceType; Shape [][]bool; X, Y int; Color int }`. -/
structure Piece where
  type : PieceType
  shape : List (List Bool)
  x : Int
  y : Int
  color : Nat
  deriving Repr, DecidableEq

/-- `func NewPiece(t PieceType) *Piece`. -/
def NewPiece (t : PieceType) : Piece :=
  { type := t
    shape := pieceShapes t
    x := (BoardWidth : Int) / 2 - (((pieceShapes t).headD []).length : Int) / 2
    y := 0
    color := pieceColors t }

/-! ### The 7-bag piece generator (internal/game/piece.go) -/

/-- `type PieceGenerator struct { rng *rand.Rand; bag []PieceType }`. -/
structure PieceGenerator where
  rng : RandSource
  bag : List PieceType
  deriving Repr, DecidableEq

/-- `func NewPieceGenerator(seed int64) *PieceGenerator`: a fresh source and
an empty bag. -/
def NewPieceGenerator (seed : Int) : PieceGenerator :=
  { rng := mkSource seed, bag := [] }

/-- The fresh bag `[]PieceType{PieceI, PieceO, PieceT, PieceS, PieceZ, PieceJ, PieceL}`
built by `refillBag` before the shuffle. -/
def freshBag : List PieceType := [.I, .O, .T, .S, .Z, .J, .L]

/-- `pg.bag[i], pg.bag[j] = pg.bag[j], pg.bag[i]`: swap two positions of a
list; indices out of range leave the list unchanged. -/
def swapIdx {α : Type} (l : List α) (i j : Nat) : List α :=
  match l.get? i, l.get? j with
  | some a, some b => (l.set i b).set j a
  | _, _ => l

/-- The Fisher–Yates loop of `refillBag`:
`for i := len(pg.bag) - 1; i > 0; i-- { j := pg.rng.Intn(i + 1); swap i j }`.
The `Nat` argument is the current loop index `i`; the loop stops at `i = 0`. -/
def fyLoop : List PieceType → RandSource → Nat → List PieceType × RandSource
  | bag, rng, 0 => (bag, rng)
  | bag, rng, k + 1 =>
      let p := rng.intn (k + 2)
      fyLoop (swapIdx bag (k + 1) p.1) p.2 k

/-- `func (pg *PieceGenerator) refillBag()`: fresh 7-bag, then the seeded
in-place Fisher–Yates shuffle. -/
def PieceGenerator.refillBag (pg : PieceGenerator) : PieceGenerator :=
  let p := fyLoop freshBag pg.rng (freshBag.length - 1)
  { rng := p.2, bag := p.1 }

/-- `func (pg *PieceGenerator) Next() *Piece`: refill when the bag is empty,
then pop the front of the bag.  The bag produced by a refill always has seven
elements (`refillBag_length`), so the empty match arm below is unreachable;
it mirrors the fact that the Go code would panic there. -/
def PieceGenerator.Next (pg : PieceGenerator) : Piece × PieceGenerator :=
  let pg1 := if pg.bag.isEmpty then pg.refillBag else pg
  match pg1.bag with
  | [] => (NewPiece .I, pg1)
  | t :: rest => (NewPiece t, { pg1 with bag := rest })

/-- The generator state after `n` calls to `Next`. -/
def stepGen (pg : PieceGenerator) : Nat → PieceGenerator
  | 0 => pg
  | n + 1 => stepGen (pg.Next).2 n

/-- The types of the next `n` pieces returned by successive calls to `Next`. -/
def takeTypes (pg : PieceGenerator) : Nat → List PieceType
  | 0 => []
  | n + 1 => (pg.Next).1.type :: takeTypes (pg.Next).2 n

/-- The type of the piece returned by the `(n+1)`-st call to `Next`. -/
def nthType (pg : PieceGenerator) (n : Nat) : PieceType :=
  ((stepGen pg n).Next).1.type

/-! ### Board (internal/game/board.go) -/

/-- `type Cell struct { Filled bool; Color int }`. -/
structure Cell where
  filled : Bool
  color : Nat
  deriving Repr, DecidableEq

/-- The zero value of `Cell`. -/
def emptyCell : Cell := { filled := false, color := 0 }

/-- `type Board struct { Cells [][]Cell; Width, Height int }`. -/
structure Board where
  cells : List (List Cell)
  width : Nat
  height : Nat
  deriving Repr, DecidableEq

/-- `func NewBoard() *Board`: a 20-row, 10-column grid of zero cells. -/
def NewBoard : Board :=
  { cells := List.replicate BoardHeight (List.replicate BoardWidth emptyCell)
    width := BoardWidth
    height := BoardHeight }

/-- `b.Cells[y][x]` for in-range indices of a well-formed board; the defaults
are only reached where the Go code would panic. -/
def Board.cellAt (b : Board) (y x : Nat) : Cell :=
  (b.cells.getD y []).getD x emptyCell

/-- `func (b *Board) IsValidPosition(p *Piece, offsetX, offsetY int) bool`. -/
def Board.IsValidPosition (b : Board) (p : Piece) (offsetX offsetY : Int) : Bool :=
  p.shape.enum.all fun yrow =>
    yrow.2.enum.all fun xcell =>
      if !xcell.2 then true
      else
        let newX := p.x + (xcell.1 : Int) + offsetX
        let newY := p.y + (yrow.1 : Int) + offsetY
        if newX < 0 || newX ≥ (b.width : Int) then false
        else if newY ≥ (b.height : Int) then false
        else if newY ≥ 0 && (b.cellAt newY.toNat newX.toNat).filled then false
        else true

/-- Write one cell of the grid (`b.Cells[y][x] = c`). -/
def setCell (cells : List (List Cell)) (y x : Nat) (c : Cell) : List (List Cell) :=
  cells.set y ((cells.getD y []).set x c)

/-- `func (b *Board) LockPiece(p *Piece)`: stamp every filled shape cell that
lands in bounds onto the grid. -/
def Board.stampPiece (b : Board) (p : Piece) : Board :=
  { b with
    cells :=
      p.shape.enum.foldl
        (fun acc yrow =>
          yrow.2.enum.foldl
            (fun acc2 xcell =>
              if xcell.2 then
                let boardY := p.y + yrow.1
                let boardX := p.x + xcell.1
                if 0 ≤ boardY ∧ boardY < (b.height : Int) ∧ 0 ≤ boardX ∧
                    boardX < (b.width : Int) then
                  setCell acc2 boardY.toNat boardX.toNat
                    { filled := true, color := p.color }
                else acc2
              else acc2)
            acc)
        b.cells }

/-- The full-row test of `ClearLines`: every column `x < width` is filled. -/
def rowFull (w : Nat) (row : List Cell) : Bool :=
  (List.range w).all fun x => (row.getD x emptyCell).filled

/-- `func (b *Board) ClearLines() int`: drop the full rows (keeping the
remaining rows in order), pad with empty rows on top, and return the number
of rows dropped. -/
def Board.ClearLines (b : Board) : Nat × Board :=
  let kept := b.cells.filter fun r => !rowFull b.width r
  let cleared := b.cells.length - kept.length
  (cleared,
    { b with
      cells :=
        List.replicate (b.height - kept.length) (List.replicate b.width emptyCell) ++
          kept })

/-- One garbage row: a single empty cell at `holeX`, every other cell filled
with color 8. -/
def garbageRow (w holeX : Nat) : List Cell :=
  (List.range w).map fun x =>
    if x = holeX then { filled := false, color := 0 }
    else { filled := true, color := 8 }

/-- The loop body of `AddGarbageLines`, iterated `count` times:
`b.Cells = append(b.Cells[1:], newLine)`. -/
def addGarbageAux (w holeX : Nat) : Nat → List (List Cell) → List (List Cell)
  | 0, cells => cells
  | k + 1, cells => addGarbageAux w holeX k (cells.tail ++ [garbageRow w holeX])

/-- `func (b *Board) AddGarbageLines(count int, holeX int)`. -/
def Board.AddGarbageLines (b : Board) (count holeX : Nat) : Board :=
  { b with cells := addGarbageAux b.width holeX count b.cells }

/-- `func (b *Board) IsGameOver(p *Piece) bool`. -/
def Board.pieceBlocked (b : Board) (p : Piece) : Bool :=
  !b.IsValidPosition p 0 0

/-! ### Game state (internal/game/state.go) -/

/-- `type GameState struct {...}` (the seeded variant: `PieceGen` is always
set; the legacy `NewGameState` path that draws from the process-global
`math/rand` is outside this deterministic model). -/
structure GameState where
  board : Board
  currentPiece : Piece
  nextPiece : Piece
  holdPiece : Option Piece
  canHold : Bool
  score : Nat
  level : Nat
  lines : Nat
  garbageQueue : Nat
  isGameOver : Bool
  isWinner : Bool
  playerID : String
  playerName : String
  attackPower : Nat
  pieceGen : PieceGenerator
  deriving Repr, DecidableEq

/-- `func NewSeededGameState(playerID, playerName string, seed int64) *GameState`. -/
def NewSeededGameState (playerID playerName : String) (seed : Int) : GameState :=
  let gen := NewPieceGenerator seed
  let d1 := gen.Next
  let d2 := d1.2.Next
  { board := NewBoard
    currentPiece := d1.1
    nextPiece := d2.1
    holdPiece := none
    canHold := true
    score := 0
    level := 1
    lines := 0
    garbageQueue := 0
    isGameOver := false
    isWinner := false
    playerID := playerID
    playerName := playerName
    attackPower := 0
    pieceGen := d2.2 }

/-- `func (gs *GameState) calculateScore(lines int) int`:
`{1:100, 2:300, 3:500, 4:800}[lines] * gs.Level`, zero when absent. -/
def GameState.calculateScore (gs : GameState) (lines : Nat) : Nat :=
  match lines with
  | 1 => 100 * gs.level
  | 2 => 300 * gs.level
  | 3 => 500 * gs.level
  | 4 => 800 * gs.level
  | _ => 0

/-- `func (gs *GameState) calculateAttack(lines int) int`:
`{1:0, 2:1, 3:2, 4:4}[lines]`, zero when absent. -/
def GameState.calculateAttack (lines : Nat) : Nat :=
  match lines with
  | 1 => 0
  | 2 => 1
  | 3 => 2
  | 4 => 4
  | _ => 0

/-- `func (gs *GameState) LockPiece() int`.  The argument `holeX` is the
value drawn from the process-global `rand.Intn(BoardWidth)` for the garbage
hole; the Go code draws it only when the garbage queue is non-empty, and it
is unused otherwise. -/
def GameState.LockPiece (gs : GameState) (holeX : Nat) : Nat × GameState :=
  let b1 := gs.board.stampPiece gs.currentPiece
  let cr := b1.ClearLines
  let linesCleared := cr.1
  let b2 := cr.2
  let newLines := gs.lines + linesCleared
  let newScore := gs.score + gs.calculateScore linesCleared
  let newLevel := newLines / 10 + 1
  let newAttack :=
    if linesCleared > 0 then GameState.calculateAttack linesCleared else 0
  let draw := gs.pieceGen.Next
  let newCurrent := gs.nextPiece
  let b3 := if gs.garbageQueue > 0 then b2.AddGarbageLines gs.garbageQueue holeX else b2
  let newQueue := if gs.garbageQueue > 0 then 0 else gs.garbageQueue
  let newOver := if b3.pieceBlocked newCurrent then true else gs.isGameOver
  (linesCleared,
    { gs with
      board := b3
      currentPiece := newCurrent
      nextPiece := draw.1
      canHold := true
      score := newScore
      level := newLevel
      lines := newLines
      garbageQueue := newQueue
      isGameOver := newOver
      attackPower := newAttack
      pieceGen := draw.2 })

/-- `func (gs *GameState) ReceiveGarbage(lines int)`. -/
def GameState.ReceiveGarbage (gs : GameState) (lines : Nat) : GameState :=
  { gs with garbageQueue := gs.garbageQueue + lines }

/-! ### Well-formedness and board operation sequences (for the invariants) -/

/-- A board whose stored dimensions are the constant 10 × 20 and whose grid
really has those dimensions. -/
def Board.WF (b : Board) : Prop :=
  b.width = BoardWidth ∧ b.height = BoardHeight ∧
    b.cells.length = BoardHeight ∧ ∀ r ∈ b.cells, r.length = BoardWidth

instance (b : Board) : Decidable b.WF := by
  unfold Board.WF
  infer_instance

/-- A line-clear or a garbage application, the two board mutations the claim
quantifies over. -/
inductive BoardOp where
  | clear
  | garbage (count holeX : Nat)
  deriving Repr, DecidableEq

/-- Run one board operation. -/
def applyOp (b : Board) : BoardOp → Board
  | .clear => b.ClearLines.2
  | .garbage count holeX => b.AddGarbageLines count holeX

/-- Run a sequence of board operations. -/
def applyOps (b : Board) (ops : List BoardOp) : Board :=
  ops.foldl applyOp b

/-- The number of filled cells of a row. -/
def filledCount (row : List Cell) : Nat :=
  (row.filter (·.filled)).length

/-- Bottom row of the C3 witness state: columns 0–7 filled, 8 and 9 empty. -/
def wrow : List Cell :=
  (List.range 10).map fun x =>
    if x < 8 then { filled := true, color := 1 } else emptyCell

/-- C3 witness state: an O piece hovering at the bottom-right corner over a
row that its lock completes. -/
def lockWitnessGS : GameState :=
  { board :=
      { cells := List.replicate 19 (List.replicate 10 emptyCell) ++ [wrow]
        width := 10
        height := 20 }
    currentPiece := { NewPiece .O with x := 8, y := 18 }
    nextPiece := NewPiece .I
    holdPiece := none
    canHold := true
    score := 0
    level := 1
    lines := 0
    garbageQueue := 0
    isGameOver := false
    isWinner := false
    playerID := "p1"
    playerName := "alice"
    attackPower := 0
    pieceGen := NewPieceGenerator 0 }

/-- C5 state: an empty board, two queued garbage rows about to be applied at
the next lock. -/
def garbageWitnessGS : GameState :=
  { board := NewBoard
    currentPiece := NewPiece .O
    nextPiece := NewPiece .I
    holdPiece := none
    canHold := true
    score := 0
    level := 1
    lines := 0
    garbageQueue := 2
    isGameOver := false
    isWinner := false
    playerID := "p1"
    playerName := "alice"
    attackPower := 0
    pieceGen := NewPieceGenerator 0 }

/-! ### Server room model (cmd/server/main.go) -/

/-- `const minPlayers = 2`. -/
def minPlayers : Nat := 2

/-- `type RoomPhase int`: `PhaseLobby`, `PhaseCountdown`, `PhasePlaying`,
`PhaseGameOver`. -/
inductive RoomPhase where
  | lobby | countdown | playing | gameOver
  deriving Repr, DecidableEq

/-- The room-relevant fields of the server-side `Player` struct: `ID`,
`Name`, `Ready`, `Alive`, `TargetID` (the connection plumbing — socket,
send channel, snapshot — is outside this state model). -/
structure PlayerM where
  id : String
  name : String
  ready : Bool
  alive : Bool
  targetID : String
  deriving Repr, DecidableEq

/-- The state fields of `type Room struct`: `code`, `phase`, `players`,
`seed`, `countdown`, `winnerID`.  The Go `players` map (playerID → Player)
is modelled as a list of players with unique `id`s; map lookup becomes
`find?` on the `id`. -/
structure RoomM where
  code : String
  phase : RoomPhase
  players : List PlayerM
  seed : Int
  countdown : Nat
  winnerID : String
  deriving Repr, DecidableEq

/-- `func (r *Room) canStart() bool`: at least `minPlayers` members and every
member ready. -/
def RoomM.canStart (r : RoomM) : Bool :=
  decide (r.players.length ≥ minPlayers) && r.players.all (·.ready)

/-- The state change of `func (r *Room) startCountdown()`: phase becomes
Countdown with the counter at 3 (the countdown broadcast task is timing,
outside the state model). -/
def RoomM.startCountdown (r : RoomM) : RoomM :=
  { r with phase := .countdown, countdown := 3 }

/-- `p.Ready = payload.Ready`: the sender's ready flag is set to the payload
value (the sender is a member of the room, so this updates the room's view
of them). -/
def RoomM.updateReady (r : RoomM) (pid : String) (v : Bool) : RoomM :=
  { r with
    players := r.players.map fun p => if p.id = pid then { p with ready := v } else p }

/-- The `MsgReady` arm of `func handleMessage`: set the sender's ready flag
to the payload value, then start the countdown when `canStart()`. -/
def handleReadyMsg (r : RoomM) (pid : String) (v : Bool) : RoomM :=
  let r1 := r.updateReady pid v
  if r1.canStart then r1.startCountdown else r1

/-- `protocol.MatchOverPayload`: `winner_id`, `winner_name`, `your_rank`. -/
structure MatchOverPayload where
  winnerID : String
  winnerName : String
  yourRank : Nat
  deriving Repr, DecidableEq

/-- `func (r *Room) checkWinCondition()`: when at most one member is alive
and the room has at least `minPlayers` members, move to GameOver, record the
winner (the sole alive player, if any), and send each member an individual
match-over message whose rank is 1 for the winner and the total member count
for everyone else.  Returns the updated room and the list of
(recipient id, payload) messages sent; outside the firing condition nothing
changes and nothing is sent.  (The delayed reset-to-lobby task is timing,
outside this state model.) -/
def RoomM.checkWinCondition (r : RoomM) : RoomM × List (String × MatchOverPayload) :=
  let alive := r.players.filter (·.alive)
  if alive.length ≤ 1 ∧ r.players.length ≥ minPlayers then
    let wpair :=
      match alive with
      | [w] => (w.id, w.name)
      | _ => ("", "")
    let roomWinner :=
      match alive with
      | [w] => w.id
      | _ => r.winnerID
    let total := r.players.length
    let msgs := r.players.map fun p =>
      (p.id,
        { winnerID := wpair.1
          winnerName := wpair.2
          yourRank := if p.id = wpair.1 then 1 else total : MatchOverPayload })
    ({ r with phase := .gameOver, winnerID := roomWinner }, msgs)
  else (r, [])

/-- `protocol.ReceiveGarbagePayload`: `lines`, `attacker_id`. -/
structure ReceiveGarbagePayload where
  lines : Int
  attackerID : String
  deriving Repr, DecidableEq

/-- The alive members other than the attacker — the `candidates` slice built
by `handleLinesCleared`'s random-target loop. -/
def aliveOpponentIds (r : RoomM) (attackerID : String) : List String :=
  (r.players.filter fun p => p.id != attackerID && p.alive).map (·.id)

/-- `func (r *Room) handleLinesCleared(attackerID, payload)`: drop
non-positive attacks; prefer the attacker's stored target when it is a
member, alive and not the attacker; otherwise pick a random alive opponent
(the index drawn by `rand.Intn(len(candidates))` is the argument `k`,
reduced mod the candidate count); with no candidates, silently send
nothing.  Returns the (recipient id, garbage payload) of the message sent,
if any. -/
def RoomM.handleLinesCleared (r : RoomM) (attackerID : String)
    (attackPower : Int) (k : Nat) : Option (String × ReceiveGarbagePayload) :=
  if attackPower ≤ 0 then none
  else
    match r.players.find? (fun p => p.id == attackerID) with
    | none => none
    | some attacker =>
      let tid0 := attacker.targetID
      let tid1 :=
        if tid0 ≠ "" then
          match r.players.find? (fun p => p.id == tid0) with
          | none => ""
          | some t => if !t.alive || tid0 == attackerID then "" else tid0
        else ""
      if tid1 ≠ "" then
        some (tid1, { lines := attackPower, attackerID := attackerID })
      else
        let candidates := aliveOpponentIds r attackerID
        if candidates.isEmpty then none
        else
          some (candidates.getD (k % candidates.length) "",
            { lines := attackPower, attackerID := attackerID })

/-! ### Pending-join token registry (cmd/server/main.go, Hub) -/

/-- `type PendingJoin struct { RoomCode, PlayerName, PlayerID string;
CreatedAt time.Time }`.  Creation time is modelled in seconds. -/
structure PendingJoin where
  roomCode : String
  playerName : String
  playerID : String
  createdAt : Int
  deriving Repr, DecidableEq

/-- The token table of `type Hub struct`: `pendingJoins map[string]*PendingJoin`,
as an association list with unique keys. -/
structure Hub where
  pendingJoins : List (String × PendingJoin)
  deriving Repr, DecidableEq

/-- The `60*time.Second` token time-to-live, in seconds. -/
def tokenTTL : Int := 60

/-- `func (h *Hub) addPendingJoin(token, pj)`: sweep every entry older than
the TTL (`now.Sub(p.CreatedAt) > 60*time.Second`), then store the new entry.
The map assignment is modelled by removing any old binding of the key and
prepending the new one. -/
def Hub.addPendingJoin (h : Hub) (token : String) (pj : PendingJoin)
    (now : Int) : Hub :=
  let swept := h.pendingJoins.filter fun e => decide (now - e.2.createdAt ≤ tokenTTL)
  { pendingJoins := (token, pj) :: swept.filter fun e => e.1 != token }

/-- `func (h *Hub) consumeToken(token) *PendingJoin`: unknown tokens fail;
known tokens are removed from the table first and then fail if expired
(`time.Since(pj.CreatedAt) > 60*time.Second`); `none` is the `nil` return
that the caller rejects as an invalid token. -/
def Hub.consumeToken (h : Hub) (token : String) (now : Int) :
    Option PendingJoin × Hub :=
  match h.pendingJoins.find? (fun e => e.1 == token) with
  | none => (none, h)
  | some e =>
    let h' : Hub := { pendingJoins := h.pendingJoins.filter fun x => x.1 != token }
    if now - e.2.createdAt > tokenTTL then (none, h') else (some e.2, h')

/-! ### Concrete witness states for the server claims -/

/-- A two-member lobby with both players ready. -/
def lobbyRoom : RoomM :=
  { code := "ROOM1"
    phase := .lobby
    players :=
      [{ id := "a", name := "Alice", ready := true, alive := true, targetID := "" },
       { id := "b", name := "Bob", ready := true, alive := true, targetID := "" }]
    seed := 0
    countdown := 0
    winnerID := "" }

/-- The sole survivor of `playingRoom`. -/
def pAlice : PlayerM :=
  { id := "a", name := "Alice", ready := false, alive := true, targetID := "" }

/-- A room in play where only Alice is still alive. -/
def playingRoom : RoomM :=
  { code := "ROOM2"
    phase := .playing
    players :=
      [pAlice,
       { id := "b", name := "Bob", ready := false, alive := false, targetID := "" }]
    seed := 7
    countdown := 0
    winnerID := "" }

/-- A room in play where nobody is alive any more. -/
def deadRoom : RoomM :=
  { code := "ROOM3"
    phase := .playing
    players :=
      [{ id := "a", name := "Alice", ready := false, alive := false, targetID := "" },
       { id := "b", name := "Bob", ready := false, alive := false, targetID := "" }]
    seed := 7
    countdown := 0
    winnerID := "" }

/-- The attacker of `atkRoom`: still targeting the departed player "b". -/
def pAtk : PlayerM :=
  { id := "a", name := "Alice", ready := false, alive := true, targetID := "b" }

/-- A room in play where the attacker's chosen target "b" has disconnected
(is no longer a member) and "c" is the only alive opponent. -/
def atkRoom : RoomM :=
  { code := "ROOM4"
    phase := .playing
    players :=
      [pAtk,
       { id := "c", name := "Carol", ready := false, alive := true, targetID := "" }]
    seed := 7
    countdown := 0
    winnerID := "" }

/-- A pending join created at time 0. -/
def pj1 : PendingJoin :=
  { roomCode := "ROOM1", playerName := "Alice", playerID := "a", createdAt := 0 }

/-- A hub whose token table holds exactly the binding for `pj1`. -/
def hub0 : Hub :=
  { pendingJoins := [("t1", pj1)] }

/-! ### Generator lemmas and the claims about it -/

theorem RandSource.intn_lt (r : RandSource) (n : Nat) (hn : 0 < n) :
    (r.intn n).1 < n := by
  simpa [RandSource.intn] using Nat.mod_lt _ hn

theorem cons_set_perm {α : Type} (xs : List α) (m : Nat) (b x : α)
    (h : xs.get? m = some b) : List.Perm (b :: xs.set m x) (x :: xs) := by
  induction xs generalizing m with
  | nil => simp at h
  | cons y ys ih =>
    match m with
    | 0 =>
      simp only [List.get?_cons_zero, Option.some.injEq] at h
      subst h
      simpa using List.Perm.swap x y ys
    | Nat.succ k =>
      simp only [List.get?_cons_succ] at h
      have step1 : List.Perm (b :: y :: ys.set k x) (y :: b :: ys.set k x) :=
        List.Perm.swap y b _
      have step2 : List.Perm (y :: b :: ys.set k x) (y :: x :: ys) :=
        List.Perm.cons y (ih k h)
      have step3 : List.Perm (y :: x :: ys) (x :: y :: ys) := List.Perm.swap x y ys
      simpa using (step1.trans step2).trans step3

theorem set_set_perm {α : Type} (l : List α) (i j : Nat) (a b : α)
    (hi : l.get? i = some a) (hj : l.get? j = some b) :
    List.Perm ((l.set i b).set j a) l := by
  induction l generalizing i j with
  | nil => simp at hi
  | cons x xs ih =>
    match i, j with
    | 0, 0 =>
      simp only [List.get?_cons_zero, Option.some.injEq] at hi hj
      subst hi; subst hj
      simp
    | 0, Nat.succ m =>
      simp only [List.get?_cons_zero, Option.some.injEq] at hi
      simp only [List.get?_cons_succ] at hj
      subst hi
      simpa using cons_set_perm xs m b x hj
    | Nat.succ n, 0 =>
      simp only [List.get?_cons_zero, Option.some.injEq] at hj
      simp only [List.get?_cons_succ] at hi
      subst hj
      simpa using cons_set_perm xs n a x hi
    | Nat.succ n, Nat.succ m =>
      simp only [List.get?_cons_succ] at hi hj
      simpa using List.Perm.cons x (ih n m hi hj)

theorem swapIdx_perm {α : Type} (l : List α) (i j : Nat) :
    List.Perm (swapIdx l i j) l := by
  unfold swapIdx
  split
  case h_1 a b hi hj => exact set_set_perm l i j a b hi hj
  case h_2 => exact List.Perm.refl l

theorem fyLoop_perm (k : Nat) (bag : List PieceType) (rng : RandSource) :
    List.Perm (fyLoop bag rng k).1 bag := by
  induction k generalizing bag rng with
  | zero => exact List.Perm.refl bag
  | succ k ih =>
    exact (ih _ _).trans (swapIdx_perm bag (k + 1) _)

theorem refillBag_perm (pg : PieceGenerator) :
    List.Perm pg.refillBag.bag freshBag := by
  simpa [PieceGenerator.refillBag] using fyLoop_perm (freshBag.length - 1) freshBag pg.rng

theorem refillBag_length (pg : PieceGenerator) :
    pg.refillBag.bag.length = 7 := by
  have h := (refillBag_perm pg).length_eq
  simpa [freshBag] using h

theorem drawAll (b : List PieceType) (rng : RandSource) :
    takeTypes { rng := rng, bag := b } b.length = b ∧
      stepGen { rng := rng, bag := b } b.length = { rng := rng, bag := [] } := by
  induction b with
  | nil => exact ⟨rfl, rfl⟩
  | cons t rest ih =>
    have hnext :
        PieceGenerator.Next { rng := rng, bag := t :: rest } =
          (NewPiece t, { rng := rng, bag := rest }) := by
      simp [PieceGenerator.Next]
    constructor
    · simp [takeTypes, hnext, NewPiece, (ih).1]
    · simp [stepGen, hnext, (ih).2]

/-- C1: for every seed, two piece generators independently constructed with
`NewPieceGenerator` on that seed yield identical piece-type sequences: the
n-th `Next` call returns a piece of the same type on both. -/
theorem pieceGen_determinism (s : Int) (g1 g2 : PieceGenerator)
    (h1 : g1 = NewPieceGenerator s) (h2 : g2 = NewPieceGenerator s) (n : Nat) :
    nthType g1 n = nthType g2 n := by
  subst h1; subst h2; rfl

theorem pieceGen_determinism_witness :
    nthType (NewPieceGenerator 42) 3 = nthType (NewPieceGenerator 42) 3 :=
  pieceGen_determinism 42 (NewPieceGenerator 42) (NewPieceGenerator 42) rfl rfl 3

/-- C2: from any generator state whose bag is exhausted (the start of a bag,
in particular a freshly constructed generator), the next 7 outputs of `Next`
are a permutation of the 7 piece types — each type appears exactly once in the
bag — and after those 7 outputs the bag is exhausted again, so every aligned
7-output window has this property. -/
theorem bag_window_perm (pg : PieceGenerator) (h : pg.bag = []) :
    List.Perm (takeTypes pg 7) freshBag ∧ (stepGen pg 7).bag = [] := by
  have hlen : pg.refillBag.bag.length = 7 := refillBag_length pg
  obtain ⟨t, rest, hbag⟩ : ∃ t rest, pg.refillBag.bag = t :: rest := by
    cases hb : pg.refillBag.bag with
    | nil => rw [hb] at hlen; simp at hlen
    | cons t rest => exact ⟨t, rest, rfl⟩
  have hrest : rest.length = 6 := by
    rw [hbag] at hlen
    simpa using hlen
  have hnext :
      pg.Next = (NewPiece t, { rng := pg.refillBag.rng, bag := rest }) := by
    unfold PieceGenerator.Next
    rw [h]
    simp only [List.isEmpty_nil, if_true, hbag]
  have hdraw := drawAll rest pg.refillBag.rng
  have htake : takeTypes pg 7 = t :: rest := by
    have h6 : takeTypes { rng := pg.refillBag.rng, bag := rest } 6 = rest := by
      have h0 := hdraw.1
      rwa [hrest] at h0
    have hunf : takeTypes pg 7 = (pg.Next).1.type :: takeTypes (pg.Next).2 6 := rfl
    rw [hunf, hnext]
    show (NewPiece t).type :: takeTypes { rng := pg.refillBag.rng, bag := rest } 6 =
      t :: rest
    rw [h6]
    simp [NewPiece]
  have hstep : (stepGen pg 7).bag = [] := by
    have h6 : stepGen { rng := pg.refillBag.rng, bag := rest } 6 =
        { rng := pg.refillBag.rng, bag := [] } := by
      have h0 := hdraw.2
      rwa [hrest] at h0
    have hunf : stepGen pg 7 = stepGen (pg.Next).2 6 := rfl
    rw [hunf, hnext]
    show (stepGen { rng := pg.refillBag.rng, bag := rest } 6).bag = []
    rw [h6]
  refine ⟨?_, hstep⟩
  rw [htake, ← hbag]
  exact refillBag_perm pg

theorem bag_window_perm_witness :
    List.Perm (takeTypes (NewPieceGenerator 0) 7) freshBag ∧
      (stepGen (NewPieceGenerator 0) 7).bag = [] :=
  bag_window_perm (NewPieceGenerator 0) rfl

/-! ### Scoring, level and attack on lock (claim C3) -/

/-- C3: locking a piece that clears `n ∈ {1,2,3,4}` lines at current level
`L` adds `{100,300,500,800}[n-1] * L` to the score, then recomputes the
level as `totalLines/10 + 1`, and sets the outgoing attack power to
`{1:0, 2:1, 3:2, 4:4}[n]`; clearing 0 lines yields attack power 0. -/
theorem lockPiece_score_level_attack (gs : GameState) (holeX n : Nat)
    (h : (gs.LockPiece holeX).1 = n) :
    (gs.LockPiece holeX).2.level = (gs.lines + n) / 10 + 1 ∧
    (n = 1 → (gs.LockPiece holeX).2.score = gs.score + 100 * gs.level) ∧
    (n = 2 → (gs.LockPiece holeX).2.score = gs.score + 300 * gs.level) ∧
    (n = 3 → (gs.LockPiece holeX).2.score = gs.score + 500 * gs.level) ∧
    (n = 4 → (gs.LockPiece holeX).2.score = gs.score + 800 * gs.level) ∧
    (n = 0 → (gs.LockPiece holeX).2.attackPower = 0) ∧
    (n = 1 → (gs.LockPiece holeX).2.attackPower = 0) ∧
    (n = 2 → (gs.LockPiece holeX).2.attackPower = 1) ∧
    (n = 3 → (gs.LockPiece holeX).2.attackPower = 2) ∧
    (n = 4 → (gs.LockPiece holeX).2.attackPower = 4) := by
  have hs : (gs.LockPiece holeX).2.score
      = gs.score + gs.calculateScore (gs.LockPiece holeX).1 := rfl
  have hl : (gs.LockPiece holeX).2.level
      = (gs.lines + (gs.LockPiece holeX).1) / 10 + 1 := rfl
  have ha : (gs.LockPiece holeX).2.attackPower
      = (if (gs.LockPiece holeX).1 > 0
          then GameState.calculateAttack (gs.LockPiece holeX).1 else 0) := rfl
  rw [h] at hs hl ha
  refine ⟨hl, ?_, ?_, ?_, ?_, ?_, ?_, ?_, ?_, ?_⟩ <;>
    (intro hn; subst hn) <;>
    simp [hs, ha, GameState.calculateScore, GameState.calculateAttack]

theorem lockPiece_score_level_attack_witness :
    (lockWitnessGS.LockPiece 0).1 = 1 ∧
      (lockWitnessGS.LockPiece 0).2.score =
        lockWitnessGS.score + 100 * lockWitnessGS.level :=
  ⟨by decide, (lockPiece_score_level_attack lockWitnessGS 0 1 (by decide)).2.1 rfl⟩

/-! ### Board dimension invariants (claim C4) -/

theorem clearLines_wf (b : Board) (h : b.WF) : b.ClearLines.2.WF := by
  obtain ⟨hw, hh, hlen, hrows⟩ := h
  have hk : (b.cells.filter fun r => !rowFull b.width r).length ≤ BoardHeight := by
    calc (b.cells.filter fun r => !rowFull b.width r).length
        ≤ b.cells.length := List.length_filter_le _ _
      _ = BoardHeight := hlen
  refine ⟨hw, hh, ?_, ?_⟩
  · simp only [Board.ClearLines, List.length_append, List.length_replicate, hh]
    omega
  · intro r hr
    simp only [Board.ClearLines, List.mem_append] at hr
    rcases hr with hr | hr
    · have hrep := List.eq_of_mem_replicate hr
      subst hrep
      simp [hw]
    · exact hrows r (List.mem_of_mem_filter hr)

theorem garbageRow_length (w holeX : Nat) : (garbageRow w holeX).length = w := by
  simp [garbageRow]

theorem addGarbageAux_length (w holeX : Nat) (count : Nat) :
    ∀ cells : List (List Cell), cells.length = BoardHeight →
      (addGarbageAux w holeX count cells).length = BoardHeight := by
  induction count with
  | zero => intro cells h; exact h
  | succ k ih =>
    intro cells h
    apply ih
    have hne : cells ≠ [] := by
      intro hc
      rw [hc] at h
      simp [BoardHeight] at h
    simp only [List.length_append, List.length_tail, h]
    simp [BoardHeight]

theorem addGarbageAux_rows (w holeX : Nat) (count : Nat) :
    ∀ cells : List (List Cell), (∀ r ∈ cells, r.length = w) →
      ∀ r ∈ addGarbageAux w holeX count cells, r.length = w := by
  induction count with
  | zero => intro cells h; exact h
  | succ k ih =>
    intro cells h
    apply ih
    intro r hr
    rcases List.mem_append.mp hr with hr | hr
    · exact h r (List.mem_of_mem_tail hr)
    · rcases List.mem_singleton.mp hr with rfl
      exact garbageRow_length w holeX

theorem addGarbage_wf (b : Board) (count holeX : Nat) (h : b.WF) :
    (b.AddGarbageLines count holeX).WF := by
  obtain ⟨hw, hh, hlen, hrows⟩ := h
  refine ⟨hw, hh, ?_, ?_⟩
  · exact addGarbageAux_length b.width holeX count b.cells hlen
  · have hrows10 : ∀ r ∈ b.cells, r.length = b.width := by
      intro r hr
      rw [hrows r hr, hw]
    intro r hr
    rw [← hw]
    exact addGarbageAux_rows b.width holeX count b.cells hrows10 r hr

theorem garbageRow_filled (holeX : Nat) (h : holeX < BoardWidth) :
    filledCount (garbageRow BoardWidth holeX) = BoardWidth - 1 := by
  have h10 : holeX < 10 := h
  interval_cases holeX <;> decide

/-- C4: under any sequence of line clears and garbage applications, a
well-formed 10 × 20 board stays well-formed 10 × 20; and every garbage row
(hole position in range, as drawn by `rand.Intn(BoardWidth)`) has exactly
`width - 1` filled cells. -/
theorem board_dims_invariant (b : Board) (ops : List BoardOp) (h : b.WF) :
    (applyOps b ops).WF ∧
      ∀ holeX, holeX < BoardWidth →
        filledCount (garbageRow BoardWidth holeX) = BoardWidth - 1 := by
  refine ⟨?_, fun holeX hx => garbageRow_filled holeX hx⟩
  induction ops generalizing b with
  | nil => exact h
  | cons op rest ih =>
    rcases op with _ | ⟨count, holeX⟩
    · exact ih _ (clearLines_wf b h)
    · exact ih _ (addGarbage_wf b count holeX h)

theorem board_dims_invariant_witness :
    (applyOps NewBoard [BoardOp.clear, BoardOp.garbage 2 4]).WF ∧
      ∀ holeX, holeX < BoardWidth →
        filledCount (garbageRow BoardWidth holeX) = BoardWidth - 1 :=
  board_dims_invariant NewBoard [BoardOp.clear, BoardOp.garbage 2 4] (by decide)

/-! ### Garbage application at lock (claim C5) -/

/-- C5 counterexample: the hole column is NOT chosen independently per
inserted row.  On a state with two queued garbage rows, for every value the
single per-application draw `rand.Intn(BoardWidth)` can take, the two rows
inserted by the lock are identical — their holes always coincide, which is
impossible under an independent per-row choice. -/
theorem garbage_hole_shared_counterexample :
    ((List.range BoardWidth).all fun holeX =>
      decide
        ((garbageWitnessGS.LockPiece holeX).2.board.cells.getD 18 [] =
          (garbageWitnessGS.LockPiece holeX).2.board.cells.getD 19 [])) = true := by
  decide

theorem foldl_preserves {β : Type} (P : List (List Cell) → Prop)
    (f : List (List Cell) → β → List (List Cell))
    (hf : ∀ acc x, P acc → P (f acc x)) :
    ∀ (l : List β) (acc : List (List Cell)), P acc → P (l.foldl f acc) := by
  intro l
  induction l with
  | nil => intro acc h; exact h
  | cons x xs ih => intro acc h; exact ih _ (hf acc x h)

theorem setCell_length (cells : List (List Cell)) (y x : Nat) (c : Cell) :
    (setCell cells y x c).length = cells.length := by
  simp [setCell]

theorem setCell_rows (cells : List (List Cell)) (y x : Nat) (c : Cell)
    (h : ∀ r ∈ cells, r.length = BoardWidth) :
    ∀ r ∈ setCell cells y x c, r.length = BoardWidth := by
  by_cases hy : y < cells.length
  · intro r hr
    rcases List.mem_or_eq_of_mem_set hr with h1 | h1
    · exact h r h1
    · subst h1
      rw [List.length_set]
      have hg : cells.getD y [] = cells[y] := List.getD_eq_getElem cells [] hy
      rw [hg]
      exact h _ (List.getElem_mem hy)
  · have hset : setCell cells y x c = cells := by
      unfold setCell
      exact List.set_eq_of_length_le (le_of_not_lt hy)
    rw [hset]
    exact h

theorem stampPiece_wf (b : Board) (p : Piece) (h : b.WF) : (b.stampPiece p).WF := by
  obtain ⟨hw, hh, hlen, hrows⟩ := h
  have hmain :
      (b.stampPiece p).cells.length = BoardHeight ∧
        ∀ r ∈ (b.stampPiece p).cells, r.length = BoardWidth := by
    unfold Board.stampPiece
    dsimp only
    refine foldl_preserves
      (fun cells => cells.length = BoardHeight ∧ ∀ r ∈ cells, r.length = BoardWidth)
      _ ?_ p.shape.enum b.cells ⟨hlen, hrows⟩
    intro acc yrow hacc
    refine foldl_preserves
      (fun cells => cells.length = BoardHeight ∧ ∀ r ∈ cells, r.length = BoardWidth)
      _ ?_ yrow.2.enum acc hacc
    intro acc2 xcell hacc2
    dsimp only
    split
    · split
      · exact ⟨by rw [setCell_length]; exact hacc2.1, setCell_rows _ _ _ _ hacc2.2⟩
      · exact hacc2
    · exact hacc2
  exact ⟨hw, hh, hmain.1, hmain.2⟩

theorem addGarbageAux_drop (w holeX : Nat) (k : Nat) :
    ∀ cells : List (List Cell), k ≤ cells.length →
      addGarbageAux w holeX k cells =
        cells.drop k ++ List.replicate k (garbageRow w holeX) := by
  induction k with
  | zero => intro cells _; simp [addGarbageAux]
  | succ k ih =>
    intro cells h
    have hne : cells ≠ [] := by
      intro hc
      rw [hc] at h
      simp at h
    have htl : k ≤ cells.tail.length := by
      rw [List.length_tail]
      omega
    have hstep : addGarbageAux w holeX (k + 1) cells =
        addGarbageAux w holeX k (cells.tail ++ [garbageRow w holeX]) := rfl
    have harg : k ≤ (cells.tail ++ [garbageRow w holeX]).length := by
      rw [List.length_append, List.length_tail]
      simp
      omega
    rw [hstep, ih _ harg]
    rw [List.drop_append_of_le_length htl]
    rw [← List.drop_one, List.drop_drop, Nat.add_comm 1 k]
    simp [List.append_assoc, List.replicate_succ]

/-- C5 amended: when queued garbage of `k` rows is applied at a piece lock,
ONE hole column is drawn per application (`rand.Intn(BoardWidth)` once in
`LockPiece`) and shared by all `k` inserted rows — not chosen independently
per row; each inserted row has exactly one empty cell, at that shared
column, and the existing rows shift upward by `k`. -/
theorem garbage_hole_once_per_application (gs : GameState) (k holeX : Nat)
    (hq : gs.garbageQueue = k) (hkpos : 0 < k) (hk : k ≤ BoardHeight)
    (hx : holeX < BoardWidth) (hwf : gs.board.WF) :
    (gs.LockPiece holeX).2.board.cells =
        (gs.board.stampPiece gs.currentPiece).ClearLines.2.cells.drop k ++
          List.replicate k (garbageRow BoardWidth holeX) ∧
      filledCount (garbageRow BoardWidth holeX) = BoardWidth - 1 ∧
      (garbageRow BoardWidth holeX).getD holeX emptyCell = emptyCell := by
  have hwf2 : (gs.board.stampPiece gs.currentPiece).ClearLines.2.WF :=
    clearLines_wf _ (stampPiece_wf _ _ hwf)
  obtain ⟨hw2, hh2, hlen2, hrows2⟩ := hwf2
  have hb : (gs.LockPiece holeX).2.board
      = (if gs.garbageQueue > 0
          then ((gs.board.stampPiece gs.currentPiece).ClearLines.2).AddGarbageLines
            gs.garbageQueue holeX
          else (gs.board.stampPiece gs.currentPiece).ClearLines.2) := rfl
  rw [hq, if_pos hkpos] at hb
  refine ⟨?_, garbageRow_filled holeX hx, ?_⟩
  · rw [hb]
    have hcells :
        (((gs.board.stampPiece gs.currentPiece).ClearLines.2).AddGarbageLines
            k holeX).cells =
          addGarbageAux (gs.board.stampPiece gs.currentPiece).ClearLines.2.width
            holeX k (gs.board.stampPiece gs.currentPiece).ClearLines.2.cells := rfl
    rw [hcells, hw2]
    exact addGarbageAux_drop BoardWidth holeX k _ (by rw [hlen2]; exact hk)
  · have hx10 : holeX < 10 := hx
    interval_cases holeX <;> decide

theorem garbage_hole_once_per_application_witness :
    (garbageWitnessGS.LockPiece 3).2.board.cells =
        (garbageWitnessGS.board.stampPiece
            garbageWitnessGS.currentPiece).ClearLines.2.cells.drop 2 ++
          List.replicate 2 (garbageRow BoardWidth 3) ∧
      filledCount (garbageRow BoardWidth 3) = BoardWidth - 1 ∧
      (garbageRow BoardWidth 3).getD 3 emptyCell = emptyCell :=
  garbage_hole_once_per_application garbageWitnessGS 2 3 rfl (by decide)
    (by decide) (by decide) (by decide)

/-! ### Lobby-to-countdown transition (claim C6) -/

/-- C6: from the Lobby phase, processing a ready message from a member moves
the room to Countdown exactly when the resulting membership has at least
`minPlayers` members all of whom are ready; in particular a toggle to false
by a member never starts a countdown. -/
theorem ready_toggle_countdown_iff (r : RoomM) (pid : String) (v : Bool)
    (hphase : r.phase = .lobby) (hmem : pid ∈ r.players.map (·.id)) :
    ((handleReadyMsg r pid v).phase = .countdown ↔
      (r.players.length ≥ minPlayers ∧
        ∀ p ∈ (r.updateReady pid v).players, p.ready = true)) ∧
    (v = false → (handleReadyMsg r pid v).phase = .lobby) := by
  have hunf : handleReadyMsg r pid v =
      if (r.updateReady pid v).canStart then (r.updateReady pid v).startCountdown
      else r.updateReady pid v := rfl
  have hlen : (r.updateReady pid v).players.length = r.players.length := by
    simp [RoomM.updateReady]
  have hupd_phase : (r.updateReady pid v).phase = r.phase := rfl
  by_cases hc : (r.updateReady pid v).canStart = true
  · have hc2 := hc
    rw [RoomM.canStart, Bool.and_eq_true, decide_eq_true_eq, List.all_eq_true] at hc2
    obtain ⟨h1, h2⟩ := hc2
    rw [hunf, if_pos hc]
    refine ⟨⟨fun _ => ⟨by rw [← hlen]; exact h1, fun p hp => h2 p hp⟩, fun _ => rfl⟩, ?_⟩
    intro hv
    exfalso
    rcases List.mem_map.mp hmem with ⟨p, hp, hpid⟩
    have hmem2 : (if p.id = pid then { p with ready := v } else p) ∈
        (r.updateReady pid v).players := by
      simp only [RoomM.updateReady]
      exact List.mem_map_of_mem _ hp
    have hrd := h2 _ hmem2
    rw [if_pos hpid] at hrd
    rw [hv] at hrd
    simp at hrd
  · rw [hunf, if_neg hc]
    refine ⟨⟨fun hph => ?_, fun hcond => ?_⟩, fun _ => by rw [hupd_phase, hphase]⟩
    · rw [hupd_phase, hphase] at hph
      exact absurd hph (by simp)
    · exfalso
      apply hc
      rw [RoomM.canStart, Bool.and_eq_true, decide_eq_true_eq, List.all_eq_true]
      exact ⟨by rw [hlen]; exact hcond.1, hcond.2⟩

theorem ready_toggle_countdown_iff_witness :
    ((handleReadyMsg lobbyRoom "a" true).phase = .countdown ↔
      (lobbyRoom.players.length ≥ minPlayers ∧
        ∀ p ∈ (lobbyRoom.updateReady "a" true).players, p.ready = true)) ∧
    (true = false → (handleReadyMsg lobbyRoom "a" true).phase = .lobby) :=
  ready_toggle_countdown_iff lobbyRoom "a" true rfl (by decide)

/-! ### Single-use, expiring join tokens (claim C7) -/

/-- C7: a join token is consumable successfully at most once — consuming an
unknown token fails, any re-consumption after a consumption fails, a token
registered more than `tokenTTL` ago fails (all with the `nil`/invalid-token
result) — and registering a new pending join sweeps every entry older than
`tokenTTL` from the table. -/
theorem token_single_use (h : Hub) (token : String) (pj : PendingJoin)
    (now now2 : Int) :
    (h.pendingJoins.find? (fun e => e.1 == token) = none →
      h.consumeToken token now = (none, h)) ∧
    ((h.consumeToken token now).2.consumeToken token now2).1 = none ∧
    (∀ e, h.pendingJoins.find? (fun e2 => e2.1 == token) = some e →
      now - e.2.createdAt > tokenTTL → (h.consumeToken token now).1 = none) ∧
    (∀ e ∈ (h.addPendingJoin token pj now).pendingJoins,
      e = (token, pj) ∨ now - e.2.createdAt ≤ tokenTTL) := by
  refine ⟨?_, ?_, ?_, ?_⟩
  · intro hnone
    unfold Hub.consumeToken
    rw [hnone]
  · cases hf : h.pendingJoins.find? (fun e => e.1 == token) with
    | none =>
      have h1 : h.consumeToken token now = (none, h) := by
        unfold Hub.consumeToken
        rw [hf]
      rw [h1]
      unfold Hub.consumeToken
      rw [hf]
    | some e =>
      have h2 : (h.consumeToken token now).2 =
          { pendingJoins := h.pendingJoins.filter fun x => x.1 != token } := by
        unfold Hub.consumeToken
        rw [hf]
        dsimp only
        by_cases hexp : now - e.2.createdAt > tokenTTL
        · rw [if_pos hexp]
        · rw [if_neg hexp]
      rw [h2]
      have hnone :
          (h.pendingJoins.filter fun x => x.1 != token).find?
            (fun e2 => e2.1 == token) = none := by
        rw [List.find?_eq_none]
        intro x hx
        have hne := (List.mem_filter.mp hx).2
        simp only [bne_iff_ne, ne_eq] at hne
        simp [hne]
      unfold Hub.consumeToken
      rw [hnone]
  · intro e hf hexp
    unfold Hub.consumeToken
    rw [hf]
    dsimp only
    rw [if_pos hexp]
  · intro e he
    unfold Hub.addPendingJoin at he
    rcases List.mem_cons.mp he with he | he
    · exact Or.inl he
    · right
      have he2 := List.mem_filter.mp (List.mem_filter.mp he).1
      exact of_decide_eq_true he2.2

theorem token_single_use_witness :
    (hub0.consumeToken "t1" 70).1 = none :=
  (token_single_use hub0 "t1" pj1 70 0).2.2.1 ("t1", pj1) rfl (by decide)

/-! ### Match-over ranks (claims C8 and C10) -/

theorem checkWin_fire (r : RoomM)
    (hcond : (r.players.filter (·.alive)).length ≤ 1 ∧
      r.players.length ≥ minPlayers) :
    r.checkWinCondition =
      (let alive := r.players.filter (·.alive)
       let wpair :=
         match alive with
         | [w] => (w.id, w.name)
         | _ => ("", "")
       let roomWinner :=
         match alive with
         | [w] => w.id
         | _ => r.winnerID
       ({ r with phase := .gameOver, winnerID := roomWinner },
         r.players.map fun p =>
           (p.id,
             { winnerID := wpair.1
               winnerName := wpair.2
               yourRank := if p.id = wpair.1 then 1 else r.players.length }))) := by
  unfold RoomM.checkWinCondition
  rw [if_pos hcond]

/-- C8: when the win-condition check runs in a room with at least 2 members
and exactly one alive player, every member receives a match-over message;
the sole alive player's message carries rank 1, and every other member's
message carries the total member count as its rank. -/
theorem match_over_ranks (r : RoomM) (w : PlayerM)
    (halive : r.players.filter (·.alive) = [w])
    (hcount : r.players.length ≥ minPlayers)
    (hnodup : (r.players.map (·.id)).Nodup) :
    r.checkWinCondition.2 =
        r.players.map (fun p =>
          (p.id,
            { winnerID := w.id
              winnerName := w.name
              yourRank := if p.id = w.id then 1 else r.players.length })) ∧
      (w.id, { winnerID := w.id, winnerName := w.name, yourRank := 1 }) ∈
        r.checkWinCondition.2 ∧
      (∀ p ∈ r.players, p ≠ w →
        (p.id,
          { winnerID := w.id
            winnerName := w.name
            yourRank := r.players.length }) ∈ r.checkWinCondition.2) ∧
      r.checkWinCondition.1.phase = .gameOver ∧
      r.checkWinCondition.1.winnerID = w.id := by
  have hcond : (r.players.filter (·.alive)).length ≤ 1 ∧
      r.players.length ≥ minPlayers := by
    rw [halive]
    exact ⟨by simp, hcount⟩
  have heq := checkWin_fire r hcond
  rw [halive] at heq
  simp only at heq
  have hwmem : w ∈ r.players := by
    have : w ∈ r.players.filter (·.alive) := by
      rw [halive]
      exact List.mem_singleton_self w
    exact List.mem_of_mem_filter this
  refine ⟨by rw [heq], ?_, ?_, by rw [heq], by rw [heq]⟩
  · rw [heq]
    have : (w.id,
        ({ winnerID := w.id, winnerName := w.name,
           yourRank := if w.id = w.id then 1 else r.players.length } :
          MatchOverPayload)) ∈
        r.players.map fun p =>
          (p.id,
            { winnerID := w.id
              winnerName := w.name
              yourRank := if p.id = w.id then 1 else r.players.length }) :=
      List.mem_map_of_mem _ hwmem
    simpa using this
  · intro p hp hpw
    have hpid : p.id ≠ w.id := by
      intro hid
      exact hpw (List.inj_on_of_nodup_map hnodup hp hwmem hid)
    rw [heq]
    have : (p.id,
        ({ winnerID := w.id, winnerName := w.name,
           yourRank := if p.id = w.id then 1 else r.players.length } :
          MatchOverPayload)) ∈
        r.players.map fun q =>
          (q.id,
            { winnerID := w.id
              winnerName := w.name
              yourRank := if q.id = w.id then 1 else r.players.length }) :=
      List.mem_map_of_mem _ hp
    rw [if_neg hpid] at this
    exact this

theorem match_over_ranks_witness :
    playingRoom.checkWinCondition.2 =
        playingRoom.players.map (fun p =>
          (p.id,
            { winnerID := pAlice.id
              winnerName := pAlice.name
              yourRank := if p.id = pAlice.id then 1 else playingRoom.players.length })) ∧
      (pAlice.id,
        { winnerID := pAlice.id, winnerName := pAlice.name, yourRank := 1 }) ∈
        playingRoom.checkWinCondition.2 ∧
      (∀ p ∈ playingRoom.players, p ≠ pAlice →
        (p.id,
          { winnerID := pAlice.id
            winnerName := pAlice.name
            yourRank := playingRoom.players.length }) ∈
          playingRoom.checkWinCondition.2) ∧
      playingRoom.checkWinCondition.1.phase = .gameOver ∧
      playingRoom.checkWinCondition.1.winnerID = pAlice.id :=
  match_over_ranks playingRoom pAlice (by decide) (by decide) (by decide)

/-- C10: when the win-condition check runs in a room with at least 2 members
and zero alive players, every member still receives a match-over message; its
winner id and winner name are the empty string, and every member's rank is
the total member count — in particular (member ids being non-empty strings)
no member receives rank 1. -/
theorem match_over_no_winner (r : RoomM)
    (halive : r.players.filter (·.alive) = [])
    (hcount : r.players.length ≥ minPlayers)
    (hids : ∀ p ∈ r.players, p.id ≠ "") :
    r.checkWinCondition.2 =
        r.players.map (fun p =>
          (p.id,
            { winnerID := ""
              winnerName := ""
              yourRank := r.players.length })) ∧
      r.checkWinCondition.2.length = r.players.length ∧
      (∀ m ∈ r.checkWinCondition.2,
        m.2.winnerID = "" ∧ m.2.winnerName = "" ∧
          m.2.yourRank = r.players.length ∧ m.2.yourRank ≠ 1) ∧
      r.checkWinCondition.1.phase = .gameOver := by
  have hcond : (r.players.filter (·.alive)).length ≤ 1 ∧
      r.players.length ≥ minPlayers := by
    rw [halive]
    exact ⟨by simp, hcount⟩
  have heq := checkWin_fire r hcond
  rw [halive] at heq
  simp only at heq
  have hmap : (r.players.map fun p =>
      (p.id,
        ({ winnerID := "", winnerName := "",
           yourRank := if p.id = ("" : String) then 1 else r.players.length } :
          MatchOverPayload))) =
      r.players.map fun p =>
        (p.id,
          ({ winnerID := "", winnerName := "",
             yourRank := r.players.length } : MatchOverPayload)) := by
    apply List.map_congr_left
    intro p hp
    rw [if_neg (hids p hp)]
  have hfinal : r.checkWinCondition.2 =
      r.players.map fun p =>
        (p.id,
          ({ winnerID := "", winnerName := "",
             yourRank := r.players.length } : MatchOverPayload)) := by
    rw [heq]
    exact hmap
  have htotal : r.players.length ≠ 1 := by
    have : minPlayers = 2 := rfl
    omega
  refine ⟨hfinal, by rw [hfinal]; simp, ?_, by rw [heq]⟩
  intro m hm
  rw [hfinal] at hm
  rcases List.mem_map.mp hm with ⟨p, _, hpm⟩
  rw [← hpm]
  exact ⟨rfl, rfl, rfl, htotal⟩

/-! ### Attack routing (claim C9) -/

theorem aliveOpp_mem (r : RoomM) (attackerID : String) (t : PlayerM)
    (htmem : t ∈ r.players) (hal : t.alive = true) (hne : t.id ≠ attackerID) :
    t.id ∈ aliveOpponentIds r attackerID := by
  unfold aliveOpponentIds
  apply List.mem_map_of_mem
  apply List.mem_filter.mpr
  refine ⟨htmem, ?_⟩
  simp [hal, hne]

/-- C9: on a report with positive attack power from a member, the garbage
message goes to the member's explicitly chosen target when that target is a
current member, alive, and not the attacker; otherwise to the alive opponent
selected by the random draw (any index selects from exactly the alive
opponents); when no alive opponent exists, no message is sent at all; and
every recipient is an alive opponent — in particular never a player who has
left the room, such as a disconnected former target. -/
theorem attack_routing (r : RoomM) (attackerID : String) (attacker : PlayerM)
    (power : Int) (k : Nat)
    (hfind : r.players.find? (fun p => p.id == attackerID) = some attacker)
    (hp : 0 < power) :
    ((∃ t, attacker.targetID ≠ "" ∧
        r.players.find? (fun p => p.id == attacker.targetID) = some t ∧
        t.alive = true ∧ attacker.targetID ≠ attackerID) →
      r.handleLinesCleared attackerID power k =
        some (attacker.targetID, { lines := power, attackerID := attackerID })) ∧
    (aliveOpponentIds r attackerID = [] →
      r.handleLinesCleared attackerID power k = none) ∧
    (∀ out, r.handleLinesCleared attackerID power k = some out →
      out.1 ∈ aliveOpponentIds r attackerID) ∧
    ((attacker.targetID = "" ∨
        r.players.find? (fun p => p.id == attacker.targetID) = none ∨
        (∃ t, r.players.find? (fun p => p.id == attacker.targetID) = some t ∧
          (t.alive = false ∨ attacker.targetID = attackerID))) →
      aliveOpponentIds r attackerID ≠ [] →
      r.handleLinesCleared attackerID power k =
        some ((aliveOpponentIds r attackerID).getD
            (k % (aliveOpponentIds r attackerID).length) "",
          { lines := power, attackerID := attackerID })) := by
  have hple : ¬ power ≤ 0 := by omega
  refine ⟨?_, ?_, ?_, ?_⟩
  · rintro ⟨t, hne0, hft, hal, hneA⟩
    unfold RoomM.handleLinesCleared
    rw [if_neg hple, hfind]
    dsimp only
    rw [if_pos hne0, hft]
    dsimp only
    have hbool : (!t.alive || (attacker.targetID == attackerID)) = false := by
      rw [hal]
      simp only [Bool.not_true, Bool.false_or]
      exact beq_eq_false_iff_ne.mpr hneA
    rw [hbool]
    simp [hne0]
  · intro hemp
    unfold RoomM.handleLinesCleared
    rw [if_neg hple, hfind]
    dsimp only
    by_cases h0 : attacker.targetID = ""
    · simp [h0, hemp]
    · cases hf : r.players.find? (fun p => p.id == attacker.targetID) with
      | none => simp [h0, hf, hemp]
      | some t =>
        by_cases hb : (!t.alive || (attacker.targetID == attackerID)) = true
        · simp [h0, hf, hb, hemp]
        · exfalso
          have hb2 : (!t.alive || (attacker.targetID == attackerID)) = false :=
            Bool.eq_false_iff.mpr hb
          have hal : t.alive = true := by
            rcases Bool.or_eq_false_iff.mp hb2 with ⟨h1, _⟩
            simpa using h1
          have hneqA : attacker.targetID ≠ attackerID := by
            rcases Bool.or_eq_false_iff.mp hb2 with ⟨_, h2⟩
            exact beq_eq_false_iff_ne.mp h2
          have htid : t.id = attacker.targetID := by
            have h3 := List.find?_some hf
            simpa [beq_iff_eq] using h3
          have hmem : t.id ∈ aliveOpponentIds r attackerID :=
            aliveOpp_mem r attackerID t (List.mem_of_find?_eq_some hf) hal
              (by rw [htid]; exact hneqA)
          rw [hemp] at hmem
          simp at hmem
  · intro out hout
    unfold RoomM.handleLinesCleared at hout
    rw [if_neg hple, hfind] at hout
    dsimp only at hout
    by_cases hemp : (aliveOpponentIds r attackerID).isEmpty = true
    · have hemp2 : aliveOpponentIds r attackerID = [] :=
        List.isEmpty_iff.mp hemp
      exfalso
      by_cases h0 : attacker.targetID = ""
      · rw [hemp2] at hout
        simp [h0] at hout
      · cases hf : r.players.find? (fun p => p.id == attacker.targetID) with
        | none =>
          rw [hf, hemp2] at hout
          simp [h0] at hout
        | some t =>
          by_cases hb : (!t.alive || (attacker.targetID == attackerID)) = true
          · rw [hf, hemp2] at hout
            simp [h0, hb] at hout
          · have hb2 : (!t.alive || (attacker.targetID == attackerID)) = false :=
              Bool.eq_false_iff.mpr hb
            have hal : t.alive = true := by
              rcases Bool.or_eq_false_iff.mp hb2 with ⟨h1, _⟩
              simpa using h1
            have hneqA : attacker.targetID ≠ attackerID := by
              rcases Bool.or_eq_false_iff.mp hb2 with ⟨_, h2⟩
              exact beq_eq_false_iff_ne.mp h2
            have htid : t.id = attacker.targetID := by
              have h3 := List.find?_some hf
              simpa [beq_iff_eq] using h3
            have hmem : t.id ∈ aliveOpponentIds r attackerID :=
              aliveOpp_mem r attackerID t (List.mem_of_find?_eq_some hf) hal
                (by rw [htid]; exact hneqA)
            rw [hemp2] at hmem
            simp at hmem
    · have hpos : 0 < (aliveOpponentIds r attackerID).length := by
        rcases hx : aliveOpponentIds r attackerID with _ | ⟨a, l⟩
        · rw [hx] at hemp
          simp at hemp
        · simp
      have hmod : k % (aliveOpponentIds r attackerID).length <
          (aliveOpponentIds r attackerID).length := Nat.mod_lt _ hpos
      have hgetmem :
          (aliveOpponentIds r attackerID).getD
            (k % (aliveOpponentIds r attackerID).length) "" ∈
            aliveOpponentIds r attackerID := by
        rw [List.getD_eq_getElem _ _ hmod]
        exact List.getElem_mem hmod
      by_cases h0 : attacker.targetID = ""
      · rw [show ((aliveOpponentIds r attackerID).isEmpty) = false from
          Bool.eq_false_iff.mpr hemp] at hout
        simp [h0] at hout
        rw [← hout]
        simpa [List.getD] using hgetmem
      · cases hf : r.players.find? (fun p => p.id == attacker.targetID) with
        | none =>
          rw [hf] at hout
          rw [show ((aliveOpponentIds r attackerID).isEmpty) = false from
            Bool.eq_false_iff.mpr hemp] at hout
          simp [h0] at hout
          rw [← hout]
          simpa [List.getD] using hgetmem
        | some t =>
          by_cases hb : (!t.alive || (attacker.targetID == attackerID)) = true
          · rw [hf] at hout
            rw [show ((aliveOpponentIds r attackerID).isEmpty) = false from
              Bool.eq_false_iff.mpr hemp] at hout
            simp [h0, hb] at hout
            rw [← hout]
            simpa [List.getD] using hgetmem
          · have hb2 : (!t.alive || (attacker.targetID == attackerID)) = false :=
              Bool.eq_false_iff.mpr hb
            have hal : t.alive = true := by
              rcases Bool.or_eq_false_iff.mp hb2 with ⟨h1, _⟩
              simpa using h1
            have hneqA : attacker.targetID ≠ attackerID := by
              rcases Bool.or_eq_false_iff.mp hb2 with ⟨_, h2⟩
              exact beq_eq_false_iff_ne.mp h2
            have htid : t.id = attacker.targetID := by
              have h3 := List.find?_some hf
              simpa [beq_iff_eq] using h3
            rw [hf] at hout
            simp [h0, hb2] at hout
            have hmem : t.id ∈ aliveOpponentIds r attackerID :=
              aliveOpp_mem r attackerID t (List.mem_of_find?_eq_some hf) hal
                (by rw [htid]; exact hneqA)
            rw [← hout]
            show attacker.targetID ∈ aliveOpponentIds r attackerID
            rw [← htid]
            exact hmem
  · intro hinv hne
    have hfalse : (aliveOpponentIds r attackerID).isEmpty = false := by
      rcases hx : aliveOpponentIds r attackerID with _ | ⟨a, l⟩
      · exact absurd hx hne
      · simp
    unfold RoomM.handleLinesCleared
    rw [if_neg hple, hfind]
    dsimp only
    rcases hinv with h0 | hf | ⟨t, hf, hcase⟩
    · simp [h0, hfalse]
    · rw [hf]
      by_cases h0 : attacker.targetID = ""
      · simp [h0, hfalse]
      · simp [h0, hfalse]
    · rw [hf]
      by_cases h0 : attacker.targetID = ""
      · simp [h0, hfalse]
      · have hb : (!t.alive || (attacker.targetID == attackerID)) = true := by
          rcases hcase with hdead | hself
          · rw [hdead]
            simp
          · rw [beq_iff_eq.mpr hself]
            simp
        simp [h0, hb, hfalse]

theorem attack_routing_witness :
    atkRoom.handleLinesCleared "a" 2 0 =
      some ("c", { lines := 2, attackerID := "a" }) := by
  have h := (attack_routing atkRoom "a" pAtk 2 0 rfl (by decide)).2.2.2
    (Or.inr (Or.inl rfl)) (by decide)
  simpa using h

theorem match_over_no_winner_witness :
    deadRoom.checkWinCondition.2 =
        deadRoom.players.map (fun p =>
          (p.id,
            { winnerID := ""
              winnerName := ""
              yourRank := deadRoom.players.length })) ∧
      deadRoom.checkWinCondition.2.length = deadRoom.players.length ∧
      (∀ m ∈ deadRoom.checkWinCondition.2,
        m.2.winnerID = "" ∧ m.2.winnerName = "" ∧
          m.2.yourRank = deadRoom.players.length ∧ m.2.yourRank ≠ 1) ∧
      deadRoom.checkWinCondition.1.phase = .gameOver :=
  match_over_no_winner deadRoom (by decide) (by decide) (by decide)

end Gotris
